import Mathlib

/-!
The `aws` command of kcp (ket-cloud-plan).

A shallow embedding of `src/main.go` and the properties of its `aws` command
handler (`awsCmd.RunE`), of `getNodeMetadataAWS` and of `getRolesFromAWS`.

Modelling conventions.

* A Go `*string` that the code compares with `nil` is an `Option String`
  (`PrivateDnsName`, `PublicIpAddress`, `PrivateIpAddress`, a tag's `Key` and
  `Value`). A pointer that the code dereferences without any check
  (`*i.InstanceId`, the elements of `[]*ec2.Tag`, `[]*ec2.Instance`,
  `[]*ec2.Reservation`, the output of a successful `DescribeInstances`) is
  modelled as the value it points to.
* A Go `error` is an `Option GoError`, `none` being `nil`. A function that
  returns `(T, error)` returns a pair.
* A run-time panic (an index out of range, `session.Must` on a failed
  session) is an explicit outcome of the handler.
* Everything the handler consults outside `main.go` is a field of `Env`.
* Formatted messages are kept as the format string with its arguments.
-/

namespace Kcp

/-! ## Data model -/

/-- The Go struct `node`. -/
structure node where
  Host : String
  IP : String
  InternalIP : String
deriving DecidableEq, Repr

/-- The Go struct `nodes`; `Ingress` and `Storage` carry the tag
`yaml:",omitempty"`. -/
structure nodes where
  Etcd : List node
  Master : List node
  Worker : List node
  Ingress : List node
  Storage : List node
deriving DecidableEq, Repr

/-- Go error values built in `main.go`.
`new` is `errors.New`, `errorf` is `errors.Errorf` and `fmt.Errorf`,
`multiErr` is a value of the slice type `multiErr` (every entry appended in
`main.go` is an `errors.New` value, kept here as its message), `wrap` is the
result of `errors.Wrap` or `errors.Wrapf` on a non-nil cause. -/
inductive GoError where
  | new (msg : String)
  | errorf (format : String) (args : List String)
  | multiErr (errs : List String)
  | wrap (cause : GoError) (format : String) (args : List String)
deriving DecidableEq, Repr

/-- The function `errors.Wrapf` of github.com/pkg/errors: "If err is nil,
Wrapf returns nil." -/
def Wrapf (err : Option GoError) (format : String) (args : List String) : Option GoError :=
  match err with
  | none => none
  | some e => some (GoError.wrap e format args)

/-- The function `errors.Wrap` of github.com/pkg/errors: "If err is nil,
Wrap returns nil." -/
def Wrap (err : Option GoError) (message : String) : Option GoError :=
  match err with
  | none => none
  | some e => some (GoError.wrap e message [])

/-- The fields of `ec2.Tag` that `main.go` reads. -/
structure Tag where
  Key : Option String
  Value : Option String
deriving DecidableEq, Repr

/-- The fields of `ec2.Instance` that `main.go` reads. -/
structure Instance where
  InstanceId : String
  PrivateDnsName : Option String
  PublicIpAddress : Option String
  PrivateIpAddress : Option String
  Tags : List Tag
deriving DecidableEq, Repr

/-- The field of `ec2.Reservation` that `main.go` reads. -/
structure Reservation where
  Instances : List Instance
deriving DecidableEq, Repr

/-- The type `ec2.Filter`. -/
structure Filter where
  Name : String
  Values : List String
deriving DecidableEq, Repr

/-- The type `ec2.DescribeInstancesInput`, as far as `main.go` fills it. -/
structure DescribeInstancesInput where
  Filters : List Filter
deriving DecidableEq, Repr

/-- The type `ec2.DescribeInstancesOutput`, as far as `main.go` reads it. -/
structure DescribeInstancesOutput where
  Reservations : List Reservation
deriving DecidableEq, Repr

/-- One node of the serialized document: its keys with their scalar values. -/
abbrev YamlNode := List (String × String)

/-- The serialized document: top-level keys in order, each with a sequence of
node mappings. -/
abbrev Document := List (String × List YamlNode)

/-- What the handler consults outside `main.go`. -/
structure Env where
  /-- The function `os.Getenv`: the empty string for a variable that is not set. -/
  Getenv : String → String
  /-- The error of `session.NewSession` for a region, `none` on success. -/
  NewSession : String → Option GoError
  /-- The call `svc.DescribeInstances(&params)` on the session of a region. -/
  DescribeInstances : String → DescribeInstancesInput → DescribeInstancesOutput × Option GoError
  /-- The function `unicode.ToLower` on runes outside ASCII. -/
  unicodeToLower : Char → Char
  /-- The key that yaml.v2 gives a struct field without a name in its tag. -/
  yamlKey : String → String

/-! ## Library functions on strings -/

/-- The function `unicode.ToLower`: explicit on ASCII, the case tables
elsewhere. -/
def toLowerRune (tbl : Char → Char) (c : Char) : Char :=
  if c.toNat < 128 then
    if 'A' ≤ c ∧ c ≤ 'Z' then Char.ofNat (c.toNat + 32) else c
  else tbl c

/-- The function `strings.ToLower`: every rune mapped by `unicode.ToLower`. -/
def ToLower (tbl : Char → Char) (s : String) : String :=
  String.mk (s.data.map (toLowerRune tbl))

/-- Splitting a rune sequence at every occurrence of `sep`. -/
def splitRunes (sep : Char) : List Char → List (List Char)
  | [] => [[]]
  | c :: cs =>
    if c = sep then [] :: splitRunes sep cs
    else
      match splitRunes sep cs with
      | [] => [[c]]
      | w :: ws => (c :: w) :: ws

/-- The call `strings.Split(s, sep)` for a one-rune separator. -/
def Split (s : String) (sep : Char) : List String :=
  (splitRunes sep s.data).map String.mk

/-- Lookup in a Go map literal: the `v, ok := m[k]` form. -/
def mapLookup (m : List (String × Bool)) (k : String) : Option Bool :=
  match m with
  | [] => none
  | (k', v) :: rest => if k = k' then some v else mapLookup rest k

/-! ## `main.go` -/

/-- The map `validRoles` of `main`. -/
def validRoles : List (String × Bool) :=
  [("etcd", true), ("master", true), ("worker", true), ("ingress", true), ("storage", true)]

/-- The function `getNodeMetadataAWS`. The last case of the final `match`
stands for a nil dereference and is never reached: a nil field makes `merr`
non-empty. -/
def getNodeMetadataAWS (i : Instance) : node × Option GoError :=
  let merr : List String := []
  let merr := if i.PrivateDnsName = none then
    merr ++ ["instance does not have a private DNS name"] else merr
  let merr := if i.PublicIpAddress = none then
    merr ++ ["instance does not have a public IP address"] else merr
  let merr := if i.PrivateIpAddress = none then
    merr ++ ["instance does not have a private IP address"] else merr
  if merr.length > 0 then
    (⟨"", "", ""⟩, some (GoError.multiErr merr))
  else
    match i.PrivateDnsName, i.PublicIpAddress, i.PrivateIpAddress with
    | some h, some ip, some iip => (⟨h, ip, iip⟩, none)
    | _, _, _ => (⟨"", "", ""⟩, none)

/-- The function `getRolesFromAWS`; the nil slice is the empty list. -/
def getRolesFromAWS (roleTag : String) : List Tag → List String × Option GoError
  | [] => ([], some (GoError.errorf "tag %q not found" [roleTag]))
  | t :: rest =>
    match t.Key with
    | none => ([], some (GoError.new "tag key is nil"))
    | some key =>
      if roleTag = key then
        match t.Value with
        | none => ([], some (GoError.errorf "value for tag %q is nil" [key]))
        | some v => (Split v ',', none)
      else getRolesFromAWS roleTag rest

/-- How a run of the handler ends: `RunE` returns an error value (`none` is
`nil`), or the goroutine panics. -/
inductive Outcome where
  | returned (err : Option GoError)
  | panicked (what : String)
deriving DecidableEq, Repr

/-- The loop `for _, role := range roles` of the handler, from the
accumulator `ns`. `err` is the variable `err` in scope there, `id` is
`*i.InstanceId`, `nd` the node of the instance. The result is the accumulator
when the loop is left and, when the handler ends inside the loop, how. -/
def roleLoop (env : Env) (id : String) (nd : node) (err : Option GoError) :
    List String → nodes → nodes × Option Outcome
  | [], ns => (ns, none)
  | role :: rest, ns =>
    let r := ToLower env.unicodeToLower role
    match mapLookup validRoles r with
    | none =>
      (ns, some (Outcome.returned (Wrapf err "instance %q has an invalid role %q" [id, r])))
    | some _ =>
      if r = "etcd" then
        roleLoop env id nd err rest { ns with Etcd := ns.Etcd ++ [nd] }
      else if r = "master" then
        roleLoop env id nd err rest { ns with Master := ns.Master ++ [nd] }
      else if r = "worker" then
        roleLoop env id nd err rest { ns with Worker := ns.Worker ++ [nd] }
      else if r = "ingress" then
        roleLoop env id nd err rest { ns with Ingress := ns.Ingress ++ [nd] }
      else if r = "storage" then
        roleLoop env id nd err rest { ns with Storage := ns.Storage ++ [nd] }
      else
        (ns, some (Outcome.returned
          (some (GoError.errorf "instance %q has invalid role tag %q" [id, r]))))

/-- The handler's work on one instance `i` (lines 91 to 119). -/
def processInstance (env : Env) (roleTag : String) (ns : nodes) (i : Instance) :
    nodes × Option Outcome :=
  let (nd, err) := getNodeMetadataAWS i
  if err ≠ none then
    (ns, some (Outcome.returned
      (Wrapf err "instance %q is missing required metadata" [i.InstanceId])))
  else
    let (roles, err) := getRolesFromAWS roleTag i.Tags
    if err ≠ none then
      (ns, some (Outcome.returned
        (Wrapf err "failed to get roles for node %q" [i.InstanceId])))
    else
      roleLoop env i.InstanceId nd err roles ns

/-- The loop `for _, r := range res.Reservations`; `err` is the error
variable of the `DescribeInstances` call, in scope at line 88. -/
def reservationLoop (env : Env) (roleTag : String) (err : Option GoError) :
    List Reservation → nodes → nodes × Option Outcome
  | [], ns => (ns, none)
  | r :: rest, ns =>
    if r.Instances.length > 1 then
      (ns, some (Outcome.returned
        (Wrap err "multiple instances found in single reservation...")))
    else
      match r.Instances[0]? with
      | none => (ns, some (Outcome.panicked "index out of range [0] with length 0"))
      | some i =>
        match processInstance env roleTag ns i with
        | (ns', some o) => (ns', some o)
        | (ns', none) => reservationLoop env roleTag err rest ns'

/-- The state a run of the handler builds up. -/
structure State where
  /-- The variable `ns`. -/
  ns : nodes
  /-- The `DescribeInstances` calls made so far: region and parameters. -/
  calls : List (String × DescribeInstancesInput)
  /-- What has been written to standard output so far. -/
  stdout : List Document
deriving DecidableEq, Repr

/-- The parameters of the `DescribeInstances` call. -/
def describeParams (awsKETRoleTag : String) : DescribeInstancesInput :=
  { Filters := [{ Name := "tag:" ++ awsKETRoleTag, Values := ["*"] }] }

/-- The loop `for _, reg := range awsRegions`. -/
def regionLoop (env : Env) (awsKETRoleTag : String) :
    List String → State → State × Option Outcome
  | [], st => (st, none)
  | reg :: rest, st =>
    match env.NewSession reg with
    | some _ => (st, some (Outcome.panicked "session.Must"))
    | none =>
      let params := describeParams awsKETRoleTag
      let (res, err) := env.DescribeInstances reg params
      let st := { st with calls := st.calls ++ [(reg, params)] }
      if err ≠ none then
        (st, some (Outcome.returned (Wrap err "failed to get instances from AWS")))
      else
        match reservationLoop env awsKETRoleTag err res.Reservations st.ns with
        | (ns', some o) => ({ st with ns := ns' }, some o)
        | (ns', none) => regionLoop env awsKETRoleTag rest { st with ns := ns' }

/-- Modelled from the spec: the encoder `yaml.Marshal` of gopkg.in/yaml.v2,
which is not part of `main.go`. Section 4.5: the document has the fields
Etcd, Master, Worker, Ingress, Storage, each a sequence of mappings with
Host, IP and InternalIP, and the Ingress and Storage keys are omitted
entirely when their sequences are empty (the `omitempty` tags of `nodes`).
`key` gives the key of a field name. -/
def yamlMarshal (key : String → String) (ns : nodes) : Document × Option GoError :=
  let enc : node → YamlNode := fun n =>
    [(key "Host", n.Host), (key "IP", n.IP), (key "InternalIP", n.InternalIP)]
  let fields : List (String × Bool × List node) :=
    [("Etcd", false, ns.Etcd), ("Master", false, ns.Master), ("Worker", false, ns.Worker),
     ("Ingress", true, ns.Ingress), ("Storage", true, ns.Storage)]
  let kept := fields.filter (fun f => !(f.2.1 && f.2.2.isEmpty))
  (kept.map (fun f => (key f.1, f.2.2.map enc)), none)

/-- The zero value of `nodes` (`var ns nodes`) with nothing called or written. -/
def initState : State :=
  { ns := ⟨[], [], [], [], []⟩, calls := [], stdout := [] }

/-- The handler `awsCmd.RunE`: the final state and how the run ends. -/
def awsRunE (env : Env) (awsRegions : List String) (awsKETRoleTag : String) :
    State × Outcome :=
  if awsRegions.length < 1 then
    (initState, Outcome.returned (some (GoError.new "At least one AWS region must be provided")))
  else
    let verrs : List String := []
    let verrs := if env.Getenv "AWS_ACCESS_KEY_ID" = "" then
      verrs ++ ["AWS_ACCESS_KEY_ID environment variable must be set"] else verrs
    let verrs := if env.Getenv "AWS_SECRET_ACCESS_KEY" = "" then
      verrs ++ ["AWS_SECRET_ACCESS_KEY environment variable must be set"] else verrs
    if verrs.length > 0 then
      (initState, Outcome.returned
        (Wrapf (some (GoError.multiErr verrs)) "missing AWS environment variables" []))
    else
      match regionLoop env awsKETRoleTag awsRegions initState with
      | (st, some o) => (st, o)
      | (st, none) =>
        let (d, err) := yamlMarshal env.yamlKey st.ns
        if err ≠ none then
          (st, Outcome.returned (Wrap err "error marshaling nodes"))
        else
          ({ st with stdout := st.stdout ++ [d] }, Outcome.returned none)

/-! ## Definitions used in the statements -/

/-- The five role names of `validRoles`. -/
def roleNames : List String := ["etcd", "master", "worker", "ingress", "storage"]

/-- The accumulator with `nd` appended `k` times per bucket, `k` the number of
times the bucket's name occurs in `names`. -/
def appendCounted (ns : nodes) (nd : node) (names : List String) : nodes :=
  { Etcd := ns.Etcd ++ List.replicate (names.count "etcd") nd
    Master := ns.Master ++ List.replicate (names.count "master") nd
    Worker := ns.Worker ++ List.replicate (names.count "worker") nd
    Ingress := ns.Ingress ++ List.replicate (names.count "ingress") nd
    Storage := ns.Storage ++ List.replicate (names.count "storage") nd }

/-- All nodes of an accumulator, bucket after bucket. -/
def allNodes (ns : nodes) : List node :=
  ns.Etcd ++ ns.Master ++ ns.Worker ++ ns.Ingress ++ ns.Storage

/-- The node `n` carries the three fields of `i`, all of them present. -/
def builtFrom (n : node) (i : Instance) : Prop :=
  i.PrivateDnsName = some n.Host ∧ i.PublicIpAddress = some n.IP ∧
    i.PrivateIpAddress = some n.InternalIP

instance (n : node) (i : Instance) : Decidable (builtFrom n i) := by
  unfold builtFrom
  infer_instance

/-! ## Concrete inputs -/

/-- An environment with both credentials set and one region, `us-east-1`,
whose query returns `rs`. -/
def envWith (rs : List Reservation) : Env :=
  { Getenv := fun _ => "x"
    NewSession := fun _ => none
    DescribeInstances := fun reg _ =>
      if reg = "us-east-1" then (⟨rs⟩, none) else (⟨[]⟩, some (GoError.new "RequestError"))
    unicodeToLower := fun c => c
    yamlKey := fun s => s }

/-- The environment `envWith rs` with no credential variable set. -/
def envUnset (rs : List Reservation) : Env :=
  { envWith rs with Getenv := fun _ => "" }

/-- An instance with all three addresses and the role tag value `v`. -/
def inst (id v : String) : Instance :=
  { InstanceId := id
    PrivateDnsName := some (id ++ ".internal")
    PublicIpAddress := some "54.0.0.1"
    PrivateIpAddress := some "10.0.0.1"
    Tags := [⟨some "Name", some id⟩, ⟨some "KetRole", some v⟩] }

/-! ## Lemmas on the role loop and the tag scan -/

theorem roleLoop_valid (env : Env) (id : String) (nd : node) (err : Option GoError) :
    ∀ (roles : List String) (ns : nodes),
      (∀ role ∈ roles, ToLower env.unicodeToLower role ∈ roleNames) →
      roleLoop env id nd err roles ns =
        (appendCounted ns nd (roles.map (ToLower env.unicodeToLower)), none) := by
  intro roles
  induction roles with
  | nil => intro ns _; simp [roleLoop, appendCounted]
  | cons role rest ih =>
    intro ns h
    have hr : ToLower env.unicodeToLower role ∈ roleNames := h role (List.mem_cons_self _ _)
    have hrest : ∀ x ∈ rest, ToLower env.unicodeToLower x ∈ roleNames :=
      fun x hx => h x (List.mem_cons_of_mem _ hx)
    simp only [roleNames, List.mem_cons, List.mem_singleton, List.not_mem_nil, or_false] at hr
    rcases hr with hr | hr | hr | hr | hr <;>
      simp [roleLoop, hr, validRoles, mapLookup, ih _ hrest, appendCounted,
        List.replicate_succ]

theorem count_roleNames (names : List String) (h : ∀ x ∈ names, x ∈ roleNames) :
    names.count "etcd" + names.count "master" + names.count "worker" +
      names.count "ingress" + names.count "storage" = names.length := by
  induction names with
  | nil => simp
  | cons x rest ih =>
    have hx : x ∈ roleNames := h x (List.mem_cons_self _ _)
    have hrest := ih (fun y hy => h y (List.mem_cons_of_mem _ hy))
    simp only [roleNames, List.mem_cons, List.mem_singleton, List.not_mem_nil, or_false] at hx
    rcases hx with hx | hx | hx | hx | hx <;>
      (subst hx; simp [List.count_cons]; omega)

theorem getRolesFromAWS_skip (roleTag : String) (rest : List Tag) :
    ∀ pre : List Tag, (∀ t ∈ pre, ∃ k, t.Key = some k ∧ k ≠ roleTag) →
      getRolesFromAWS roleTag (pre ++ rest) = getRolesFromAWS roleTag rest := by
  intro pre
  induction pre with
  | nil => intro _; rfl
  | cons t more ih =>
    intro h
    obtain ⟨k, hk, hne⟩ := h t (List.mem_cons_self _ _)
    have hmore := ih (fun x hx => h x (List.mem_cons_of_mem _ hx))
    simp [getRolesFromAWS, hk, Ne.symm hne, hmore]

theorem splitRunes_ne_nil (sep : Char) (cs : List Char) : splitRunes sep cs ≠ [] := by
  induction cs with
  | nil => simp [splitRunes]
  | cons c rest ih =>
    unfold splitRunes
    split
    · simp
    · split <;> simp

theorem Split_ne_nil (s : String) (sep : Char) : Split s sep ≠ [] := by
  simp [Split, splitRunes_ne_nil]

/-- Every tag list is of one of four shapes for the scan: no tag has the key,
or the first decisive tag has no key, or has the key and no value, or has the
key and a value. -/
theorem scan_shapes (roleTag : String) (tags : List Tag) :
    (∀ t ∈ tags, ∃ k, t.Key = some k ∧ k ≠ roleTag) ∨
    (∃ pre val post, tags = pre ++ ⟨none, val⟩ :: post ∧
      ∀ t ∈ pre, ∃ k, t.Key = some k ∧ k ≠ roleTag) ∨
    (∃ pre post, tags = pre ++ ⟨some roleTag, none⟩ :: post ∧
      ∀ t ∈ pre, ∃ k, t.Key = some k ∧ k ≠ roleTag) ∨
    (∃ pre v post, tags = pre ++ ⟨some roleTag, some v⟩ :: post ∧
      ∀ t ∈ pre, ∃ k, t.Key = some k ∧ k ≠ roleTag) := by
  induction tags with
  | nil => left; simp
  | cons t rest ih =>
    rcases t with ⟨key, val⟩
    cases key with
    | none => right; left; exact ⟨[], val, rest, rfl, by simp⟩
    | some k =>
      by_cases hk : k = roleTag
      · subst hk
        cases val with
        | none => right; right; left; exact ⟨[], rest, rfl, by simp⟩
        | some v => right; right; right; exact ⟨[], v, rest, rfl, by simp⟩
      · have hgood : ∀ x ∈ [(⟨some k, val⟩ : Tag)], ∃ k', x.Key = some k' ∧ k' ≠ roleTag := by
          intro x hx
          simp only [List.mem_singleton] at hx
          subst hx
          exact ⟨k, rfl, hk⟩
        rcases ih with h | ⟨pre, w, post, he, hp⟩ | ⟨pre, post, he, hp⟩ | ⟨pre, v, post, he, hp⟩
        · left
          intro x hx
          rcases List.mem_cons.mp hx with hx | hx
          · exact hgood x (by simp [hx])
          · exact h x hx
        · right; left
          refine ⟨⟨some k, val⟩ :: pre, w, post, by simp [he], ?_⟩
          intro x hx
          rcases List.mem_cons.mp hx with hx | hx
          · exact hgood x (by simp [hx])
          · exact hp x hx
        · right; right; left
          refine ⟨⟨some k, val⟩ :: pre, post, by simp [he], ?_⟩
          intro x hx
          rcases List.mem_cons.mp hx with hx | hx
          · exact hgood x (by simp [hx])
          · exact hp x hx
        · right; right; right
          refine ⟨⟨some k, val⟩ :: pre, v, post, by simp [he], ?_⟩
          intro x hx
          rcases List.mem_cons.mp hx with hx | hx
          · exact hgood x (by simp [hx])
          · exact hp x hx


theorem mapLookup_validRoles_none (r : String) (h : r ∉ roleNames) :
    mapLookup validRoles r = none := by
  simp only [roleNames, List.mem_cons, List.mem_singleton, List.not_mem_nil, or_false,
    not_or] at h
  obtain ⟨h1, h2, h3, h4, h5⟩ := h
  simp [mapLookup, validRoles, h1, h2, h3, h4, h5]

/-- With the nil `err` that the handler has in scope, a role list with a name
outside the role set makes the loop end the run with a nil error. -/
theorem roleLoop_invalid_returns_nil (env : Env) (id : String) (nd : node) :
    ∀ (roles : List String) (ns : nodes),
      (∃ role ∈ roles, ToLower env.unicodeToLower role ∉ roleNames) →
      (roleLoop env id nd none roles ns).2 = some (Outcome.returned none) := by
  intro roles
  induction roles with
  | nil => intro ns h; simp at h
  | cons role rest ih =>
    intro ns h
    by_cases hr : ToLower env.unicodeToLower role ∈ roleNames
    · have hrest : ∃ x ∈ rest, ToLower env.unicodeToLower x ∉ roleNames := by
        obtain ⟨x, hx, hbad⟩ := h
        rcases List.mem_cons.mp hx with hx | hx
        · subst hx; exact absurd hr hbad
        · exact ⟨x, hx, hbad⟩
      simp only [roleNames, List.mem_cons, List.mem_singleton, List.not_mem_nil, or_false] at hr
      rcases hr with hr | hr | hr | hr | hr <;>
        simp [roleLoop, hr, validRoles, mapLookup, ih _ hrest]
    · simp [roleLoop, mapLookup_validRoles_none _ hr, Wrapf]

/-! ## Lemmas on the loops of the handler -/

theorem roleLoop_nodes (env : Env) (id : String) (nd : node) (err : Option GoError) :
    ∀ (roles : List String) (ns : nodes),
      ∀ n ∈ allNodes (roleLoop env id nd err roles ns).1, n ∈ allNodes ns ∨ n = nd := by
  intro roles
  induction roles with
  | nil => intro ns n hn; left; simpa [roleLoop] using hn
  | cons role rest ih =>
    intro ns n hn
    unfold roleLoop at hn
    simp only at hn
    split at hn
    · left; exact hn
    · split at hn
      · rcases ih _ n hn with h | h
        · simp only [allNodes, List.mem_append, List.mem_singleton] at h ⊢; tauto
        · exact Or.inr h
      · split at hn
        · rcases ih _ n hn with h | h
          · simp only [allNodes, List.mem_append, List.mem_singleton] at h ⊢; tauto
          · exact Or.inr h
        · split at hn
          · rcases ih _ n hn with h | h
            · simp only [allNodes, List.mem_append, List.mem_singleton] at h ⊢; tauto
            · exact Or.inr h
          · split at hn
            · rcases ih _ n hn with h | h
              · simp only [allNodes, List.mem_append, List.mem_singleton] at h ⊢; tauto
              · exact Or.inr h
            · split at hn
              · rcases ih _ n hn with h | h
                · simp only [allNodes, List.mem_append, List.mem_singleton] at h ⊢; tauto
                · exact Or.inr h
              · left; exact hn

theorem processInstance_nodes (env : Env) (roleTag : String) (ns : nodes) (i : Instance) :
    ∀ n ∈ allNodes (processInstance env roleTag ns i).1, n ∈ allNodes ns ∨ builtFrom n i := by
  intro n hn
  rcases i with ⟨id, dns, pub, priv, tags⟩
  cases dns <;> cases pub <;> cases priv <;>
    simp only [processInstance, getNodeMetadataAWS] at hn <;>
    simp at hn <;> try exact Or.inl hn
  rename_i h ip iip
  split at hn
  · rcases roleLoop_nodes env id ⟨h, ip, iip⟩ _ _ ns n hn with h1 | h1
    · exact Or.inl h1
    · right; subst h1; exact ⟨rfl, rfl, rfl⟩
  · exact Or.inl hn

theorem reservationLoop_nodes (env : Env) (roleTag : String) (err : Option GoError) :
    ∀ (rs : List Reservation) (ns : nodes),
      ∀ n ∈ allNodes (reservationLoop env roleTag err rs ns).1,
        n ∈ allNodes ns ∨ ∃ r ∈ rs, ∃ i ∈ r.Instances, builtFrom n i := by
  intro rs
  induction rs with
  | nil => intro ns n hn; left; simpa [reservationLoop] using hn
  | cons r rest ih =>
    intro ns n hn
    unfold reservationLoop at hn
    split at hn
    · exact Or.inl hn
    · split at hn
      · exact Or.inl hn
      · rename_i i hi
        have hmem : i ∈ r.Instances := by
          have := List.getElem?_eq_some_iff.mp hi
          obtain ⟨hlt, he⟩ := this
          rw [← he]
          exact List.getElem_mem _
        have hstep := processInstance_nodes env roleTag ns i
        split at hn
        · rename_i ns' o heq
          rw [heq] at hstep
          rcases hstep n hn with h | h
          · exact Or.inl h
          · exact Or.inr ⟨r, List.mem_cons_self _ _, i, hmem, h⟩
        · rename_i ns' heq
          rw [heq] at hstep
          rcases ih ns' n hn with h | ⟨r', hr', i', hi', hb⟩
          · rcases hstep n h with h | h
            · exact Or.inl h
            · exact Or.inr ⟨r, List.mem_cons_self _ _, i, hmem, h⟩
          · exact Or.inr ⟨r', List.mem_cons_of_mem _ hr', i', hi', hb⟩

theorem regionLoop_nodes (env : Env) (roleTag : String) :
    ∀ (regs : List String) (st : State),
      ∀ n ∈ allNodes (regionLoop env roleTag regs st).1.ns,
        n ∈ allNodes st.ns ∨ ∃ reg ∈ regs,
          ∃ r ∈ (env.DescribeInstances reg (describeParams roleTag)).1.Reservations,
            ∃ i ∈ r.Instances, builtFrom n i := by
  intro regs
  induction regs with
  | nil => intro st n hn; left; simpa [regionLoop] using hn
  | cons reg rest ih =>
    intro st n hn
    unfold regionLoop at hn
    split at hn
    · exact Or.inl hn
    · simp only at hn
      split at hn
      · exact Or.inl hn
      · have hres := reservationLoop_nodes env roleTag
          (env.DescribeInstances reg (describeParams roleTag)).2
          (env.DescribeInstances reg (describeParams roleTag)).1.Reservations st.ns
        split at hn
        · rename_i ns' o heq
          rw [heq] at hres
          rcases hres n hn with h | ⟨r, hr, i, hi, hb⟩
          · exact Or.inl h
          · exact Or.inr ⟨reg, List.mem_cons_self _ _, r, hr, i, hi, hb⟩
        · rename_i ns' heq
          rw [heq] at hres
          rcases ih _ n hn with h | ⟨reg', hreg', r, hr, i, hi, hb⟩
          · rcases hres n h with h | ⟨r, hr, i, hi, hb⟩
            · exact Or.inl h
            · exact Or.inr ⟨reg, List.mem_cons_self _ _, r, hr, i, hi, hb⟩
          · exact Or.inr ⟨reg', List.mem_cons_of_mem _ hreg', r, hr, i, hi, hb⟩

theorem regionLoop_stdout (env : Env) (roleTag : String) :
    ∀ (regs : List String) (st : State),
      (regionLoop env roleTag regs st).1.stdout = st.stdout := by
  intro regs
  induction regs with
  | nil => intro st; simp [regionLoop]
  | cons reg rest ih =>
    intro st
    unfold regionLoop
    split
    · rfl
    · simp only
      split
      · rfl
      · split
        · rfl
        · rw [ih]

theorem regionLoop_calls (env : Env) (roleTag : String) :
    ∀ (regs : List String) (st st' : State),
      regionLoop env roleTag regs st = (st', none) →
      st'.calls = st.calls ++ regs.map (fun reg => (reg, describeParams roleTag)) := by
  intro regs
  induction regs with
  | nil => intro st st' h; simp [regionLoop] at h; simp [← h]
  | cons reg rest ih =>
    intro st st' h
    unfold regionLoop at h
    split at h
    · simp at h
    · simp only at h
      split at h
      · simp at h
      · split at h
        · simp at h
        · rw [ih _ _ h]; simp

/-- The three ways a run of the handler relates to its region loop: it ends in
the input checks, it ends inside the loop, or the loop completes and the
document is written. -/
theorem awsRunE_shape (env : Env) (regs : List String) (tag : String) :
    ((awsRunE env regs tag).1 = initState ∧
      ∃ e, (awsRunE env regs tag).2 = Outcome.returned (some e)) ∨
    (∃ st o, regionLoop env tag regs initState = (st, some o) ∧
      awsRunE env regs tag = (st, o)) ∨
    (∃ st, regionLoop env tag regs initState = (st, none) ∧
      awsRunE env regs tag =
        ({ st with stdout := st.stdout ++ [(yamlMarshal env.yamlKey st.ns).1] },
          Outcome.returned none)) := by
  by_cases h0 : regs = []
  · left; simp [awsRunE, h0]
  · by_cases h1 : env.Getenv "AWS_ACCESS_KEY_ID" = ""
    · left
      by_cases h2 : env.Getenv "AWS_SECRET_ACCESS_KEY" = "" <;>
        simp [awsRunE, h0, h1, h2, Wrapf]
    · by_cases h2 : env.Getenv "AWS_SECRET_ACCESS_KEY" = ""
      · left; simp [awsRunE, h0, h1, h2, Wrapf]
      · right
        rcases hr : regionLoop env tag regs initState with ⟨st, o⟩
        cases o with
        | some o =>
          left
          exact ⟨st, o, rfl, by simp [awsRunE, h0, h1, h2, hr]⟩
        | none =>
          right
          exact ⟨st, rfl, by simp [awsRunE, h0, h1, h2, hr, yamlMarshal]⟩

/-- C1. An instance that passes metadata extraction and whose role tag (the
first tag with the role-tag key, the tags before it having other keys) has a
value `v` that splits into N names, each after lowercasing one of etcd, master,
worker, ingress, storage: the handler's step on the instance leaves the loop
without ending the run, and every bucket is the old bucket followed by the
instance's node once per occurrence of the bucket's name among the N lowercased
names (nothing for a name that does not occur); the appends number N in all,
and the reservation loop goes on to the next reservation with these buckets. -/
theorem aws_valid_roles_append (env : Env) (roleTag v : String) (ns : nodes) (i : Instance)
    (pre post : List Tag)
    (hmeta : (getNodeMetadataAWS i).2 = none)
    (htags : i.Tags = pre ++ ⟨some roleTag, some v⟩ :: post)
    (hpre : ∀ t ∈ pre, ∃ k, t.Key = some k ∧ k ≠ roleTag)
    (hvalid : ∀ role ∈ Split v ',',
      ToLower env.unicodeToLower role ∈ ["etcd", "master", "worker", "ingress", "storage"]) :
    ∃ ns' : nodes, ∃ names : List String,
      names = (Split v ',').map (ToLower env.unicodeToLower) ∧
      processInstance env roleTag ns i = (ns', none) ∧
      ns'.Etcd = ns.Etcd ++ List.replicate (names.count "etcd") (getNodeMetadataAWS i).1 ∧
      ns'.Master = ns.Master ++ List.replicate (names.count "master") (getNodeMetadataAWS i).1 ∧
      ns'.Worker = ns.Worker ++ List.replicate (names.count "worker") (getNodeMetadataAWS i).1 ∧
      ns'.Ingress = ns.Ingress ++ List.replicate (names.count "ingress") (getNodeMetadataAWS i).1 ∧
      ns'.Storage = ns.Storage ++ List.replicate (names.count "storage") (getNodeMetadataAWS i).1 ∧
      names.count "etcd" + names.count "master" + names.count "worker" +
        names.count "ingress" + names.count "storage" = (Split v ',').length ∧
      ∀ (err : Option GoError) (rest : List Reservation),
        reservationLoop env roleTag err (⟨[i]⟩ :: rest) ns =
          reservationLoop env roleTag err rest ns' := by
  have hroles : getRolesFromAWS roleTag (pre ++ ⟨some roleTag, some v⟩ :: post) =
      (Split v ',', none) := by
    rw [getRolesFromAWS_skip roleTag _ pre hpre]
    simp [getRolesFromAWS]
  rw [← htags] at hroles
  have hloop := roleLoop_valid env i.InstanceId (getNodeMetadataAWS i).1 none (Split v ',') ns hvalid
  have hstep : processInstance env roleTag ns i =
      (appendCounted ns (getNodeMetadataAWS i).1
        ((Split v ',').map (ToLower env.unicodeToLower)), none) := by
    unfold processInstance
    rcases hm : getNodeMetadataAWS i with ⟨nd, e⟩
    rw [hm] at hmeta hloop
    simp only at hmeta hloop
    subst hmeta
    simp [hroles, hloop]
  refine ⟨appendCounted ns (getNodeMetadataAWS i).1 ((Split v ',').map (ToLower env.unicodeToLower)),
    (Split v ',').map (ToLower env.unicodeToLower), rfl, hstep, rfl, rfl, rfl, rfl, rfl, ?_, ?_⟩
  · have := count_roleNames ((Split v ',').map (ToLower env.unicodeToLower)) (by
      intro x hx
      obtain ⟨role, hrole, rfl⟩ := List.mem_map.mp hx
      exact hvalid role hrole)
    simpa using this
  · intro err rest
    simp [reservationLoop, hstep]

/-- C1, the scenario of the specification: the tag value "ETCD,Worker" puts the
node in the Etcd and Worker buckets only. -/
theorem aws_valid_roles_append_witness :
    processInstance (envWith []) "KetRole" ⟨[], [], [], [], []⟩ (inst "i-1" "ETCD,Worker") =
      (⟨[⟨"i-1.internal", "54.0.0.1", "10.0.0.1"⟩], [], [⟨"i-1.internal", "54.0.0.1", "10.0.0.1"⟩],
        [], []⟩, none) := by
  obtain ⟨ns', names, hn, hp, h1, h2, h3, h4, h5, _, _⟩ :=
    aws_valid_roles_append (envWith []) "KetRole" "ETCD,Worker" ⟨[], [], [], [], []⟩
      (inst "i-1" "ETCD,Worker") [⟨some "Name", some "i-1"⟩] [] (by decide) (by decide)
      (by decide) (by decide)
  rw [hp]
  subst hn
  have e1 : ((Split "ETCD,Worker" ',').map (ToLower (envWith []).unicodeToLower)) =
      ["etcd", "worker"] := by decide
  have e2 : (getNodeMetadataAWS (inst "i-1" "ETCD,Worker")).1 =
      ⟨"i-1.internal", "54.0.0.1", "10.0.0.1"⟩ := by decide
  rw [e1, e2] at h1 h2 h3 h4 h5
  cases ns'
  simp only at h1 h2 h3 h4 h5
  subst h1 h2 h3 h4 h5
  decide

/-- C2, the code at an invalid role. The instance i-1 has the role tag value
"etcd,bogus": at "bogus" the handler returns `errors.Wrapf(err, ...)` with the
nil `err` left by the successful `getRolesFromAWS`, which is nil, so the run
ends without an error and without output; the same with the bad role first. -/
theorem aws_invalid_role_returns_nil :
    awsRunE (envWith [⟨[inst "i-1" "etcd,bogus"]⟩]) ["us-east-1"] "KetRole" =
      ({ ns := ⟨[⟨"i-1.internal", "54.0.0.1", "10.0.0.1"⟩], [], [], [], []⟩
         calls := [("us-east-1", describeParams "KetRole")]
         stdout := [] }, Outcome.returned none) ∧
    awsRunE (envWith [⟨[inst "i-1" "bogus,etcd"]⟩]) ["us-east-1"] "KetRole" =
      ({ ns := ⟨[], [], [], [], []⟩
         calls := [("us-east-1", describeParams "KetRole")]
         stdout := [] }, Outcome.returned none) := by
  decide

/-- C3, the code at a reservation with two instances: the handler returns
`errors.Wrap(err, ...)` with the nil `err` of the successful query, which is
nil; the run ends there, without an error and without output, and the later
reservation is not processed. -/
theorem aws_two_instances_returns_nil :
    awsRunE (envWith [⟨[inst "i-1" "etcd", inst "i-2" "worker"]⟩, ⟨[inst "i-3" "master"]⟩])
        ["us-east-1"] "KetRole" =
      ({ ns := ⟨[], [], [], [], []⟩
         calls := [("us-east-1", describeParams "KetRole")]
         stdout := [] }, Outcome.returned none) := by
  decide

/-- C4. `getNodeMetadataAWS` returns an error exactly when one of the three
fields is absent; the error is then the aggregate with one entry per absent
field, in the order hostname, public address, private address, and the node is
the zero node; with all three present there is no error and the node carries
the three values. In the handler, an instance with an absent field ends the
run with that aggregate wrapped in a message that has the instance id as its
argument, the accumulator is returned unchanged and the reservations after it
are not processed. -/
theorem getNodeMetadataAWS_missing_fields (i : Instance) :
    ((getNodeMetadataAWS i).2 ≠ none ↔
      (i.PrivateDnsName = none ∨ i.PublicIpAddress = none ∨ i.PrivateIpAddress = none)) ∧
    ((i.PrivateDnsName = none ∨ i.PublicIpAddress = none ∨ i.PrivateIpAddress = none) →
      getNodeMetadataAWS i = (⟨"", "", ""⟩, some (GoError.multiErr (
        (if i.PrivateDnsName = none then ["instance does not have a private DNS name"] else []) ++
        (if i.PublicIpAddress = none then ["instance does not have a public IP address"] else []) ++
        (if i.PrivateIpAddress = none then ["instance does not have a private IP address"] else []))))) ∧
    (∀ h ip iip : String, i.PrivateDnsName = some h → i.PublicIpAddress = some ip →
      i.PrivateIpAddress = some iip → getNodeMetadataAWS i = (⟨h, ip, iip⟩, none)) ∧
    ((i.PrivateDnsName = none ∨ i.PublicIpAddress = none ∨ i.PrivateIpAddress = none) →
      ∀ (env : Env) (roleTag : String) (err : Option GoError) (rest : List Reservation)
        (ns : nodes),
        ∃ merr : GoError, (getNodeMetadataAWS i).2 = some merr ∧
          reservationLoop env roleTag err (⟨[i]⟩ :: rest) ns =
            (ns, some (Outcome.returned (some (GoError.wrap merr
              "instance %q is missing required metadata" [i.InstanceId]))))) := by
  rcases i with ⟨id, dns, pub, priv, tags⟩
  cases dns <;> cases pub <;> cases priv <;>
    simp [getNodeMetadataAWS, reservationLoop, processInstance, Wrapf]

/-- C4, at an instance with only a hostname: both addresses are reported, in
order, and the handler stops on it with the instance id in the message. -/
theorem getNodeMetadataAWS_missing_fields_witness :
    getNodeMetadataAWS ⟨"i-7", some "ip-10-0-0-7.internal", none, none, []⟩ =
      (⟨"", "", ""⟩, some (GoError.multiErr ["instance does not have a public IP address",
        "instance does not have a private IP address"])) ∧
    (∃ merr : GoError,
      (getNodeMetadataAWS ⟨"i-7", some "ip-10-0-0-7.internal", none, none, []⟩).2 = some merr ∧
      reservationLoop (envWith []) "KetRole" none
          [⟨[⟨"i-7", some "ip-10-0-0-7.internal", none, none, []⟩]⟩, ⟨[inst "i-8" "etcd"]⟩]
          ⟨[], [], [], [], []⟩ =
        (⟨[], [], [], [], []⟩, some (Outcome.returned (some (GoError.wrap merr
          "instance %q is missing required metadata" ["i-7"]))))) :=
  ⟨(getNodeMetadataAWS_missing_fields
      ⟨"i-7", some "ip-10-0-0-7.internal", none, none, []⟩).2.1 (by decide),
   (getNodeMetadataAWS_missing_fields
      ⟨"i-7", some "ip-10-0-0-7.internal", none, none, []⟩).2.2.2 (by decide)
      (envWith []) "KetRole" none [⟨[inst "i-8" "etcd"]⟩] ⟨[], [], [], [], []⟩⟩

/-- C5, as the code has it. `getRolesFromAWS` fails when no tag has the key
(tag not found), when the first tag with the key has no value (a nil value; an
empty string is a value), and when the scan reaches a tag without a key before
any tag with the key; in every other case the first tag with the key has a
value, and the result is, without error, the non-empty list of the pieces of
that value between commas. -/
theorem getRolesFromAWS_scan (roleTag : String) (tags : List Tag) :
    ((∀ t ∈ tags, ∃ k, t.Key = some k ∧ k ≠ roleTag) →
      getRolesFromAWS roleTag tags = ([], some (GoError.errorf "tag %q not found" [roleTag]))) ∧
    (∀ pre post, tags = pre ++ ⟨some roleTag, none⟩ :: post →
      (∀ t ∈ pre, ∃ k, t.Key = some k ∧ k ≠ roleTag) →
      getRolesFromAWS roleTag tags =
        ([], some (GoError.errorf "value for tag %q is nil" [roleTag]))) ∧
    (∀ pre val post, tags = pre ++ ⟨none, val⟩ :: post →
      (∀ t ∈ pre, ∃ k, t.Key = some k ∧ k ≠ roleTag) →
      getRolesFromAWS roleTag tags = ([], some (GoError.new "tag key is nil"))) ∧
    (¬ (∀ t ∈ tags, ∃ k, t.Key = some k ∧ k ≠ roleTag) →
      ¬ (∃ pre post, tags = pre ++ ⟨some roleTag, none⟩ :: post ∧
        ∀ t ∈ pre, ∃ k, t.Key = some k ∧ k ≠ roleTag) →
      ¬ (∃ pre val post, tags = pre ++ ⟨none, val⟩ :: post ∧
        ∀ t ∈ pre, ∃ k, t.Key = some k ∧ k ≠ roleTag) →
      ∃ pre v post, tags = pre ++ ⟨some roleTag, some v⟩ :: post ∧
        (∀ t ∈ pre, ∃ k, t.Key = some k ∧ k ≠ roleTag) ∧
        getRolesFromAWS roleTag tags = (Split v ',', none) ∧ Split v ',' ≠ []) := by
  refine ⟨?_, ?_, ?_, ?_⟩
  · intro h
    have := getRolesFromAWS_skip roleTag [] tags h
    simpa [getRolesFromAWS] using this
  · intro pre post he hp
    rw [he, getRolesFromAWS_skip roleTag _ pre hp]
    simp [getRolesFromAWS]
  · intro pre val post he hp
    rw [he, getRolesFromAWS_skip roleTag _ pre hp]
    simp [getRolesFromAWS]
  · intro h1 h2 h3
    rcases scan_shapes roleTag tags with h | h | h | ⟨pre, v, post, he, hp⟩
    · exact absurd h h1
    · exact absurd h h3
    · exact absurd h h2
    · refine ⟨pre, v, post, he, hp, ?_, Split_ne_nil v ','⟩
      rw [he, getRolesFromAWS_skip roleTag _ pre hp]
      simp [getRolesFromAWS]

/-- C5, the four cases at concrete tag lists: the key is not there, the tag
with the key has no value, a tag without a key comes first, and the role tag
comes after a tag with another key. -/
theorem getRolesFromAWS_scan_witness :
    getRolesFromAWS "KetRole" [⟨some "Name", some "a"⟩] =
      ([], some (GoError.errorf "tag %q not found" ["KetRole"])) ∧
    getRolesFromAWS "KetRole" [⟨some "Name", some "a"⟩, ⟨some "KetRole", none⟩] =
      ([], some (GoError.errorf "value for tag %q is nil" ["KetRole"])) ∧
    getRolesFromAWS "KetRole" [⟨none, some "a"⟩, ⟨some "KetRole", some "etcd"⟩] =
      ([], some (GoError.new "tag key is nil")) ∧
    (∃ pre v post,
      [(⟨some "Name", some "a"⟩ : Tag), ⟨some "KetRole", some "etcd,master"⟩] =
        pre ++ ⟨some "KetRole", some v⟩ :: post ∧
      (∀ t ∈ pre, ∃ k, t.Key = some k ∧ k ≠ "KetRole") ∧
      getRolesFromAWS "KetRole" [⟨some "Name", some "a"⟩, ⟨some "KetRole", some "etcd,master"⟩] =
        (Split v ',', none) ∧ Split v ',' ≠ []) :=
  ⟨(getRolesFromAWS_scan "KetRole" [⟨some "Name", some "a"⟩]).1 (by decide),
   (getRolesFromAWS_scan "KetRole" [⟨some "Name", some "a"⟩, ⟨some "KetRole", none⟩]).2.1
      [⟨some "Name", some "a"⟩] [] rfl (by decide),
   (getRolesFromAWS_scan "KetRole" [⟨none, some "a"⟩, ⟨some "KetRole", some "etcd"⟩]).2.2.1
      [] (some "a") [⟨some "KetRole", some "etcd"⟩] rfl (by decide),
   (getRolesFromAWS_scan "KetRole"
      [⟨some "Name", some "a"⟩, ⟨some "KetRole", some "etcd,master"⟩]).2.2.2
      (by decide)
      (by
        rintro ⟨pre, post, he, _⟩
        have hm : (⟨some "KetRole", none⟩ : Tag) ∈
            [(⟨some "Name", some "a"⟩ : Tag), ⟨some "KetRole", some "etcd,master"⟩] := by
          rw [he]; simp
        revert hm; decide)
      (by
        rintro ⟨pre, val, post, he, _⟩
        have hm : (⟨none, val⟩ : Tag) ∈
            [(⟨some "Name", some "a"⟩ : Tag), ⟨some "KetRole", some "etcd,master"⟩] := by
          rw [he]; simp
        simp at hm)⟩

/-- C5, counterexample to failure on an empty value: a role tag whose value is
the empty string is not an error, the result is the one-element list holding the empty string. -/
theorem getRolesFromAWS_empty_value_accepted :
    getRolesFromAWS "KetRole" [⟨some "KetRole", some ""⟩] = ([""], none) := by
  decide

/-- C6, as the code has it. Every node in a bucket of the handler's
accumulator was built from an instance of a reservation returned by the query
of one of the regions, an instance whose private DNS name, public IP address
and private IP address are all present (not nil), and the node has these three
values as Host, IP and InternalIP. Presence is what `getNodeMetadataAWS` tests:
a present value may be the empty string. -/
theorem aws_nodes_have_present_fields (env : Env) (awsRegions : List String)
    (awsKETRoleTag : String) (n : node)
    (hn : n ∈ (awsRunE env awsRegions awsKETRoleTag).1.ns.Etcd ∨
      n ∈ (awsRunE env awsRegions awsKETRoleTag).1.ns.Master ∨
      n ∈ (awsRunE env awsRegions awsKETRoleTag).1.ns.Worker ∨
      n ∈ (awsRunE env awsRegions awsKETRoleTag).1.ns.Ingress ∨
      n ∈ (awsRunE env awsRegions awsKETRoleTag).1.ns.Storage) :
    ∃ reg ∈ awsRegions,
      ∃ r ∈ (env.DescribeInstances reg (describeParams awsKETRoleTag)).1.Reservations,
        ∃ i ∈ r.Instances,
          i.PrivateDnsName = some n.Host ∧ i.PublicIpAddress = some n.IP ∧
            i.PrivateIpAddress = some n.InternalIP ∧
            (getNodeMetadataAWS i).2 = none := by
  have hall : n ∈ allNodes (awsRunE env awsRegions awsKETRoleTag).1.ns := by
    simp only [allNodes, List.mem_append]; tauto
  have hloop := regionLoop_nodes env awsKETRoleTag awsRegions initState n
  have hinit : ¬ n ∈ allNodes initState.ns := by simp [initState, allNodes]
  have key : n ∈ allNodes (regionLoop env awsKETRoleTag awsRegions initState).1.ns := by
    rcases awsRunE_shape env awsRegions awsKETRoleTag with ⟨h, _⟩ | ⟨st, o, hr, h⟩ |
        ⟨st, hr, h⟩
    · rw [h] at hall; exact absurd hall hinit
    · rw [h] at hall; rw [hr]; exact hall
    · rw [h] at hall; rw [hr]; exact hall
  rcases hloop key with h | ⟨reg, hreg, r, hr, i, hi, h1, h2, h3⟩
  · exact absurd h hinit
  · refine ⟨reg, hreg, r, hr, i, hi, h1, h2, h3, ?_⟩
    simp [getNodeMetadataAWS, h1, h2, h3]

/-- C6, at a run with one instance in the etcd role: its node comes from that
instance. -/
theorem aws_nodes_have_present_fields_witness :
    ∃ reg ∈ ["us-east-1"],
      ∃ r ∈ ((envWith [⟨[inst "i-1" "etcd"]⟩]).DescribeInstances reg
          (describeParams "KetRole")).1.Reservations,
        ∃ i ∈ r.Instances,
          i.PrivateDnsName = some "i-1.internal" ∧ i.PublicIpAddress = some "54.0.0.1" ∧
            i.PrivateIpAddress = some "10.0.0.1" ∧ (getNodeMetadataAWS i).2 = none :=
  aws_nodes_have_present_fields (envWith [⟨[inst "i-1" "etcd"]⟩]) ["us-east-1"] "KetRole"
    ⟨"i-1.internal", "54.0.0.1", "10.0.0.1"⟩ (Or.inl (by decide))

/-- C6, counterexample to non-empty fields: an instance whose three fields are
present and empty passes `getNodeMetadataAWS`, and the run succeeds with a node of
empty hostname and addresses in the Etcd bucket and in the document. -/
theorem aws_inserts_node_with_empty_fields :
    getNodeMetadataAWS ⟨"i-9", some "", some "", some "", [⟨some "KetRole", some "etcd"⟩]⟩ =
      (⟨"", "", ""⟩, none) ∧
    awsRunE (envWith [⟨[⟨"i-9", some "", some "", some "", [⟨some "KetRole", some "etcd"⟩]⟩]⟩])
        ["us-east-1"] "KetRole" =
      ({ ns := ⟨[⟨"", "", ""⟩], [], [], [], []⟩
         calls := [("us-east-1", describeParams "KetRole")]
         stdout := [[("Etcd", [[("Host", ""), ("IP", ""), ("InternalIP", "")]]),
                     ("Master", []), ("Worker", [])]] }, Outcome.returned none) := by
  decide

/-- C7, as the code has it. Without a region the handler returns the region
error alone, whatever the credentials; with a region and a credential variable
empty it returns one aggregate, wrapped as "missing AWS environment variables",
with an entry for each empty variable, access key id first. In both cases no
`DescribeInstances` call has been made and nothing has been written. -/
theorem aws_missing_inputs (env : Env) (awsRegions : List String) (awsKETRoleTag : String) :
    (awsRegions = [] →
      awsRunE env awsRegions awsKETRoleTag =
        (initState, Outcome.returned
          (some (GoError.new "At least one AWS region must be provided")))) ∧
    (awsRegions ≠ [] →
      (env.Getenv "AWS_ACCESS_KEY_ID" = "" ∨ env.Getenv "AWS_SECRET_ACCESS_KEY" = "") →
      awsRunE env awsRegions awsKETRoleTag =
        (initState, Outcome.returned (some (GoError.wrap (GoError.multiErr (
          (if env.Getenv "AWS_ACCESS_KEY_ID" = "" then
            ["AWS_ACCESS_KEY_ID environment variable must be set"] else []) ++
          (if env.Getenv "AWS_SECRET_ACCESS_KEY" = "" then
            ["AWS_SECRET_ACCESS_KEY environment variable must be set"] else [])))
          "missing AWS environment variables" [])))) ∧
    initState.calls = [] ∧ initState.stdout = [] := by
  refine ⟨?_, ?_, rfl, rfl⟩
  · intro h
    subst h
    simp [awsRunE]
  · intro hne hcred
    have hlen : ¬ awsRegions.length < 1 := by
      cases awsRegions with
      | nil => exact absurd rfl hne
      | cons a l => simp
    by_cases h1 : env.Getenv "AWS_ACCESS_KEY_ID" = "" <;>
      by_cases h2 : env.Getenv "AWS_SECRET_ACCESS_KEY" = "" <;>
      simp_all [awsRunE, Wrapf]

/-- C7, with a region and both credential variables unset: the aggregate
lists both. -/
theorem aws_missing_inputs_witness :
    awsRunE (envUnset []) ["us-east-1"] "KetRole" =
      (initState, Outcome.returned (some (GoError.wrap (GoError.multiErr
        ["AWS_ACCESS_KEY_ID environment variable must be set",
         "AWS_SECRET_ACCESS_KEY environment variable must be set"])
        "missing AWS environment variables" []))) :=
  (aws_missing_inputs (envUnset []) ["us-east-1"] "KetRole").2.1 (by decide) (by decide)

/-- C7, counterexample to one aggregate over all inputs: with no region and
both credential variables unset the error is the region error, it names neither variable, and
no aggregate is built. -/
theorem aws_no_region_reports_region_only :
    (envUnset []).Getenv "AWS_ACCESS_KEY_ID" = "" ∧
    (envUnset []).Getenv "AWS_SECRET_ACCESS_KEY" = "" ∧
    awsRunE (envUnset []) [] "KetRole" =
      (initState, Outcome.returned
        (some (GoError.new "At least one AWS region must be provided"))) := by
  decide

/-- C8, the code at an instance that fails role resolution by an unknown role.
The first reservation is processed, the instance i-2 of the second has the
role tag value "worker,db": the handler returns nil (no error) and has written
nothing. What does hold for every run: the handler writes at most once, and
when it has written, it has returned nil after querying every region in the
order given, and what it wrote is the document of the final accumulator. -/
theorem aws_unknown_role_ends_silently :
    awsRunE (envWith [⟨[inst "i-1" "master"]⟩, ⟨[inst "i-2" "worker,db"]⟩])
        ["us-east-1"] "KetRole" =
      ({ ns := ⟨[], [⟨"i-1.internal", "54.0.0.1", "10.0.0.1"⟩],
                [⟨"i-2.internal", "54.0.0.1", "10.0.0.1"⟩], [], []⟩
         calls := [("us-east-1", describeParams "KetRole")]
         stdout := [] }, Outcome.returned none) ∧
    (∀ (env : Env) (awsRegions : List String) (awsKETRoleTag : String),
      (awsRunE env awsRegions awsKETRoleTag).1.stdout ≠ [] →
        (awsRunE env awsRegions awsKETRoleTag).2 = Outcome.returned none ∧
        (awsRunE env awsRegions awsKETRoleTag).1.calls =
          awsRegions.map (fun reg => (reg, describeParams awsKETRoleTag)) ∧
        (awsRunE env awsRegions awsKETRoleTag).1.stdout =
          [(yamlMarshal env.yamlKey (awsRunE env awsRegions awsKETRoleTag).1.ns).1]) := by
  refine ⟨by decide, ?_⟩
  intro env regs tag hout
  have hstd := regionLoop_stdout env tag regs initState
  rcases awsRunE_shape env regs tag with ⟨h, _⟩ | ⟨st, o, hr, h⟩ | ⟨st, hr, h⟩
  · rw [h] at hout; exact absurd rfl hout
  · rw [hr] at hstd
    rw [h] at hout
    exact absurd hstd hout
  · rw [hr] at hstd
    have hcalls := regionLoop_calls env tag regs initState st hr
    rw [h]
    simp only at hstd
    refine ⟨rfl, ?_, ?_⟩
    · simpa [initState] using hcalls
    · simp [hstd, initState]

/-- C9. The serialized document has the Etcd, Master and Worker keys in this
order, each with the sequence of its bucket's nodes in bucket order (the empty
sequence for an empty bucket), then the Ingress key exactly when the Ingress
bucket is not empty and the Storage key exactly when the Storage bucket is not
empty, each with its bucket's nodes; every node is the mapping of Host, IP and
InternalIP to its three values; and serializing never fails. -/
theorem yamlMarshal_document (key : String → String) (ns : nodes) :
    yamlMarshal key ns =
      ([(key "Etcd", ns.Etcd.map (fun n =>
            [(key "Host", n.Host), (key "IP", n.IP), (key "InternalIP", n.InternalIP)])),
        (key "Master", ns.Master.map (fun n =>
            [(key "Host", n.Host), (key "IP", n.IP), (key "InternalIP", n.InternalIP)])),
        (key "Worker", ns.Worker.map (fun n =>
            [(key "Host", n.Host), (key "IP", n.IP), (key "InternalIP", n.InternalIP)]))] ++
       (if ns.Ingress = [] then [] else
        [(key "Ingress", ns.Ingress.map (fun n =>
            [(key "Host", n.Host), (key "IP", n.IP), (key "InternalIP", n.InternalIP)]))]) ++
       (if ns.Storage = [] then [] else
        [(key "Storage", ns.Storage.map (fun n =>
            [(key "Host", n.Host), (key "IP", n.IP), (key "InternalIP", n.InternalIP)]))]),
       none) := by
  rcases ns with ⟨e, m, w, ing, sto⟩
  cases ing <;> cases sto <;> simp [yamlMarshal, List.filter]

/-- C10, the code at a reservation with no instance: the test
`len(r.Instances) > 1` lets it through and `r.Instances[0]` is out of range. -/
theorem aws_empty_reservation_panics :
    awsRunE (envWith [⟨[]⟩, ⟨[inst "i-3" "master"]⟩]) ["us-east-1"] "KetRole" =
      ({ ns := ⟨[], [], [], [], []⟩
         calls := [("us-east-1", describeParams "KetRole")]
         stdout := [] }, Outcome.panicked "index out of range [0] with length 0") := by
  decide

end Kcp
